import Mathlib

/-!
Verification of the `Project` abstraction of the monorepo package manager
(`packages/osd-pm/src/utils/project.ts`).

The embedding models:
  * JS objects with string keys as association lists (first match wins,
    keys of a parsed manifest are unique);
  * JS dynamic values reaching the dynamically-typed manifest fields
    (`bin`, the custom-definitions block) as the inductive `JsValue`,
    together with JS truthiness;
  * POSIX path handling for the Node `path` functions `resolve` and
    `relative` used by the source (absolute project directories);
  * the effectful operations (`installDependencyVersion`,
    `removeExtraneousNodeModules`) as pure functions that take the
    relevant pre-state (file contents, workspaces info, existing
    `node_modules` entries) and return the driver call made together
    with the resulting state.
-/

set_option autoImplicit false

namespace OsdPm

/-- Property lookup on a JS object modelled as an association list
(first matching key wins; parsed JSON objects have unique keys). -/
def olookup {α : Type} (o : List (String × α)) (k : String) : Option α :=
  match o with
  | [] => none
  | (k', v) :: rest => if k' = k then some v else olookup rest k

/-- JS object spread `\x7b...a, ...b\x7d`: the keys of `a` in their order,
with the value overridden by `b` on key collision, followed by the keys of
`b` that do not occur in `a`. -/
def objSpread {α : Type} (a b : List (String × α)) : List (String × α) :=
  a.map (fun kv => (kv.1, (olookup b kv.1).getD kv.2)) ++
    b.filter (fun kv => (olookup a kv.1).isNone)

/-- A JS runtime value, as far as the dynamically-checked manifest fields
(`bin`, the `@osd/pm` block) need: strings, numbers, booleans, `null`,
and objects whose values are strings (the `bin` mapping shape). -/
inductive JsValue : Type where
  | str (s : String)
  | num (n : Int)
  | boolean (b : Bool)
  | nullv
  | obj (entries : List (String × String))
deriving DecidableEq

/-- JS truthiness of a `JsValue` (`""`, `0`, `false` and `null` are falsy;
every object is truthy). -/
def JsValue.truthy : JsValue → Bool
  | .str s => !(s == "")
  | .num n => !(n == 0)
  | .boolean b => b
  | .nullv => false
  | .obj _ => true

/-- `util.inspect` rendering of a `JsValue`, used for the `binConfig`
diagnostic field. -/
def inspectValue : JsValue → String
  | .str s => "\x27" ++ s ++ "\x27"
  | .num n => toString n
  | .boolean b => if b then "true" else "false"
  | .nullv => "null"
  | .obj entries =>
      "\x7b " ++
        String.intercalate ", "
          (entries.map (fun kv => kv.1 ++ ": \x27" ++ kv.2 ++ "\x27")) ++
        " \x7d"

/-! ### POSIX path handling (Node `path.resolve` / `path.relative`) -/

/-- `String.prototype.startsWith`, via character lists. -/
def strStartsWith (s pre : String) : Bool :=
  List.isPrefixOf pre.toList s.toList

/-- Helper for `splitPath`: walk the characters, accumulating the current
segment reversed, emitting a segment at every `/` and at the end; empty
segments are skipped. -/
def splitPathAux (cur : List Char) : List Char → List String
  | [] => if cur = [] then [] else [String.mk cur.reverse]
  | c :: cs =>
      if c = '/' then
        if cur = [] then splitPathAux [] cs
        else String.mk cur.reverse :: splitPathAux [] cs
      else splitPathAux (c :: cur) cs

/-- Split a POSIX path into its non-empty segments. -/
def splitPath (p : String) : List String :=
  splitPathAux [] p.toList

/-- Normalize a segment list: drop `.` segments and let `..` consume the
previous segment (clamped at the root, as Node does for absolute paths). -/
def normSegments (segs : List String) : List String :=
  segs.foldl
    (fun acc s =>
      if s = "." then acc
      else if s = ".." then acc.dropLast
      else acc ++ [s])
    []

/-- Node `path.resolve(base, s)` for an absolute `base` (project
directories are absolute throughout `osd-pm`). -/
def resolvePath (base s : String) : String :=
  let combined := if strStartsWith s "/" then s else base ++ "/" ++ s
  "/" ++ String.intercalate "/" (normSegments (splitPath combined))

/-- Drop the common prefix of two segment lists, returning the two
remainders. -/
def dropCommonPrefix : List String → List String → List String × List String
  | a :: as, b :: bs =>
      if a = b then dropCommonPrefix as bs else (a :: as, b :: bs)
  | as, bs => (as, bs)

/-- Node `path.relative(fromPath, toPath)` for absolute arguments: strip
the common prefix, then one `..` per remaining segment of `fromPath`
followed by the remaining segments of `toPath`. Equal paths give `""`. -/
def relativePath (fromPath toPath : String) : String :=
  let f := normSegments (splitPath fromPath)
  let t := normSegments (splitPath toPath)
  let rest := dropCommonPrefix f t
  String.intercalate "/" (List.replicate rest.1.length ".." ++ rest.2)

/-- Helper for `normalizePath`: copy characters, collapsing every run of
`/` or `\` separators into a single `/`. The flag records whether the
previous character belonged to a separator run. -/
def normalizeSepChars : Bool → List Char → List Char
  | _, [] => []
  | afterSep, c :: cs =>
      if c = '/' ∨ c = '\\' then
        if afterSep then normalizeSepChars true cs
        else '/' :: normalizeSepChars true cs
      else c :: normalizeSepChars false cs

/-- `normalizePath` (project.ts line 345): replace every run of path
separators (`/[\\\/]+/g`) by a single forward slash. -/
def normalizePath (path : String) : String :=
  String.mk (normalizeSepChars false path.toList)

/-! ### Manifest and Project -/

/-- The parsed `package.json` (`IPackageJson`), restricted to the fields
the `Project` class reads. `workspaces := true` models presence of the
`workspaces` key; `osdPm` is the `@osd/pm` custom-definitions block. -/
structure PackageJson : Type where
  name : String
  version : String
  dependencies : Option (List (String × String))
  devDependencies : Option (List (String × String))
  scripts : Option (List (String × String))
  bin : Option JsValue
  workspaces : Bool
  osdPm : Option (List (String × JsValue))
deriving DecidableEq

/-- `CliError(message, meta)` from `utils/errors.ts`: a structured error
with a message and a map of diagnostic fields. -/
structure CliError : Type where
  message : String
  meta : List (String × String)
deriving DecidableEq

/-- Modelled from the spec: the fixed build-target enumeration
(`BuildTargetTypes` from `targeted_build.ts`, which is not part of this
excerpt) — "`buildTargets`: ordered subset of a fixed enumeration
(e.g. \x7bnode, web, ...\x7d)". -/
inductive BuildTargetType : Type where
  | node
  | web
deriving DecidableEq

/-- The manifest key corresponding to a build target. -/
def BuildTargetType.key : BuildTargetType → String
  | .node => "node"
  | .web => "web"

/-- Modelled from the spec: the fixed enumeration order of build targets
(`BuildTargets` from `targeted_build.ts`). -/
def BuildTargets : List BuildTargetType := [.node, .web]

/-- Truthy presence of key `k` in a JS object: `o[k]` exists and is
truthy (the `if (this.customDefinitions[target])` test). -/
def truthyKey (o : List (String × JsValue)) (k : String) : Bool :=
  match olookup o k with
  | some v => v.truthy
  | none => false

/-- The `Project` class: one parsed manifest plus its directory, with the
derived fields computed by the constructor. -/
structure Project : Type where
  json : PackageJson
  path : String
  packageJsonLocation : String
  nodeModulesLocation : String
  targetLocation : String
  version : String
  productionDependencies : List (String × String)
  devDependencies : List (String × String)
  allDependencies : List (String × String)
  scripts : List (String × String)
  customDefinitions : List (String × JsValue)
  buildTargets : List BuildTargetType
  isWorkspaceRoot : Bool
  isWorkspaceProject : Bool
deriving DecidableEq

/-- The `Project` constructor (project.ts lines 97–121).
`isWorkspaceProject` starts `false` and is set after construction by the
caller that builds the project graph. -/
def Project.fromJson (packageJson : PackageJson) (projectPath : String) : Project :=
  let productionDependencies := packageJson.dependencies.getD []
  let devDependencies := packageJson.devDependencies.getD []
  { json := packageJson
    path := projectPath
    packageJsonLocation := resolvePath projectPath "package.json"
    nodeModulesLocation := resolvePath projectPath "node_modules"
    targetLocation := resolvePath projectPath "target"
    version := packageJson.version
    productionDependencies := productionDependencies
    devDependencies := devDependencies
    allDependencies := objSpread devDependencies productionDependencies
    scripts := packageJson.scripts.getD []
    customDefinitions := packageJson.osdPm.getD []
    buildTargets :=
      BuildTargets.filter
        (fun t => truthyKey (packageJson.osdPm.getD []) t.key)
    isWorkspaceRoot := packageJson.workspaces
    isWorkspaceProject := false }

/-- `get name()` (project.ts line 123). -/
def Project.name (p : Project) : String :=
  p.json.name

/-- Modelled from the spec: `isLinkDependency` lives in
`package_json.ts`, which is not part of this excerpt. Per the spec a link
dependency is "a declared dependency resolved to a local filesystem path
rather than a registry version", written with the `link:` prefix; an
absent declaration is not a link reference. -/
def isLinkDependency : Option String → Bool
  | some v => strStartsWith v "link:"
  | none => false

/-- JS template-literal interpolation of a possibly-`undefined` string
(`undefined` renders as the text `undefined`). -/
def jsDisplay (v : Option String) : String :=
  v.getD "undefined"

/-- `ensureValidProjectDependency` (project.ts lines 127–160), embedded
as a fallible pure function: `ok` models the silent return, `error`
models the thrown `CliError`. -/
def Project.ensureValidProjectDependency (p : Project) (project : Project)
    (dependentProjectIsInWorkspace : Bool) : Except CliError Unit :=
  let versionInPackageJson := olookup p.allDependencies project.name
  let expectedVersionInPackageJson :=
    if dependentProjectIsInWorkspace then project.json.version
    else "link:" ++ normalizePath (relativePath p.path project.path)
  if versionInPackageJson = some expectedVersionInPackageJson then
    Except.ok ()
  else
    let problemMsg :=
      if isLinkDependency versionInPackageJson && dependentProjectIsInWorkspace then
        "but should be using a workspace"
      else if isLinkDependency versionInPackageJson then
        "using \x27link:\x27, but the path is wrong"
      else
        "but it\x27s not using the local package"
    Except.error
      { message :=
          "[" ++ p.name ++ "] depends on [" ++ project.name ++ "] " ++
            problemMsg ++ ". Update its package.json to the expected value below."
        meta :=
          [("actual",
              "\"" ++ project.name ++ "\": \"" ++
                jsDisplay versionInPackageJson ++ "\""),
           ("expected",
              "\"" ++ project.name ++ "\": \"" ++
                expectedVersionInPackageJson ++ "\""),
           ("package", p.name ++ " (" ++ p.packageJsonLocation ++ ")")] }

/-- `getExecutables` (project.ts lines 191–220): returns the mapping of
executable name to absolute path derived from the `bin` manifest field,
or the thrown `CliError` for an invalid shape. -/
def Project.getExecutables (p : Project) : Except CliError (List (String × String)) :=
  match p.json.bin with
  | none => Except.ok []
  | some raw =>
    if raw.truthy = false then Except.ok []
    else
      match raw with
      | JsValue.str s => Except.ok [(p.name, resolvePath p.path s)]
      | JsValue.obj entries =>
          Except.ok (entries.map (fun kv => (kv.1, resolvePath p.path kv.2)))
      | v =>
          Except.error
            { message :=
                "[" ++ p.name ++
                  "] has an invalid \"bin\" field in its package.json, expected an object or a string"
              meta :=
                [("binConfig", inspectValue v),
                 ("package", p.name ++ " (" ++ p.packageJsonLocation ++ ")")] }

/-! ### installDependencyVersion -/

/-- `const rangeToUse = range || `^${version}`` (project.ts line 280):
an absent or empty range string defaults to the caret-prefixed version. -/
def rangeToUse (range : Option String) (version : String) : String :=
  match range with
  | some r => if r = "" then "^" ++ version else r
  | none => "^" ++ version

/-- Replace every literal, non-overlapping, leftmost-first occurrence of
`pat` in the character list by `rep`. The fuel is the list length; every
step consumes at least one character. An empty `pat` leaves the input
unchanged. -/
def replaceAux (pat rep : List Char) : Nat → List Char → List Char
  | _, [] => []
  | 0, cs => cs
  | Nat.succ fuel, c :: cs =>
      if pat ≠ [] ∧ List.isPrefixOf pat (c :: cs) then
        rep ++ replaceAux pat rep fuel (List.drop (pat.length - 1) cs)
      else
        c :: replaceAux pat rep fuel cs

/-- Modelled from the spec: `patchFile` lives in `scripts.ts`, which is
not part of this excerpt. Per the spec it rewrites a persisted text
artifact in place, "replacing every literal occurrence" of the search
text with the replacement text. Modelled as the pure transformation of
the file content. -/
def patchFileContent (content search replacement : String) : String :=
  String.mk (replaceAux search.toList replacement.toList content.toList.length content.toList)

/-- Modelled from the spec: the driver call made by
`installDependencyVersion` through the External Operation Driver
interface `install(dir, extraArgs, isDependencyInstall)` (`installInDir`
in `scripts.ts`, not part of this excerpt). A bare install of the whole
directory passes no `extraArgs`. -/
structure InstallCall : Type where
  extraArgs : Option (List String)
  isDependencyInstall : Bool
deriving DecidableEq

/-- Result of `installDependencyVersion`: the driver call made and the
patched contents of the two persisted text artifacts. -/
structure InstallVersionResult : Type where
  installCall : InstallCall
  manifest : String
  lock : String
deriving DecidableEq

/-- `installDependencyVersion` (project.ts lines 270–308), embedded over
the pre-state of the two persisted text artifacts (`manifestText` is the
`package.json` content, `lockText` the `yarn.lock` content). The trailing
`removeExtraneousNodeModules` call is modelled separately. -/
def Project.installDependencyVersion (p : Project) (depName version : String)
    (dev : Bool) (range : Option String)
    (manifestText lockText : String) : InstallVersionResult :=
  let r := rangeToUse range version
  let extraArgs :=
    if dev then [depName ++ "@" ++ version, "--dev"]
    else [depName ++ "@" ++ version]
  let call : InstallCall :=
    if p.isWorkspaceProject then { extraArgs := none, isDependencyInstall := false }
    else { extraArgs := some extraArgs, isDependencyInstall := true }
  { installCall := call
    manifest :=
      patchFileContent manifestText
        ("\"" ++ depName ++ "\": \"" ++ version ++ "\"")
        ("\"" ++ depName ++ "\": \"" ++ r ++ "\"")
    lock :=
      patchFileContent lockText
        (depName ++ "@" ++ version)
        (depName ++ "@" ++ r) }

/-! ### removeExtraneousNodeModules -/

/-- `deps && deps.hasOwnProperty(name)` for an optional dependency map
(project.ts lines 333–334). -/
def hasOwnDep (deps : Option (List (String × String))) (name : String) : Bool :=
  match deps with
  | some d => (olookup d name).isSome
  | none => false

/-- Result of `removeExtraneousNodeModules`: whether the driver was
queried for workspaces info, and which `node_modules` entries were
unlinked, in order. -/
structure RemoveLinksResult : Type where
  queriedWorkspacesInfo : Bool
  removed : List String
deriving DecidableEq

/-- `removeExtraneousNodeModules` (project.ts lines 315–341), embedded
over the driver's workspaces info (name to declared intra-workspace
dependency names, unique keys) and the set of names whose entry exists
in the root's `node_modules` (`existsSync`); `unlinkSync` calls are
collected in `removed`. -/
def Project.removeExtraneousNodeModules (p : Project)
    (workspacesInfo : List (String × List String))
    (nodeModulesEntries : List String) : RemoveLinksResult :=
  if p.isWorkspaceRoot = false then
    { queriedWorkspacesInfo := false, removed := [] }
  else
    let names := workspacesInfo.map Prod.fst
    let unusedWorkspaces :=
      names.filter (fun n => !(workspacesInfo.any (fun w => w.2.contains n)))
    let removed :=
      unusedWorkspaces.filter (fun name =>
        let isDependency := hasOwnDep p.json.dependencies name
        let isDevDependency := hasOwnDep p.json.devDependencies name
        !isDependency && !isDevDependency && nodeModulesEntries.contains name)
    { queriedWorkspacesInfo := true, removed := removed }

/-! ### Lookup lemmas -/

theorem olookup_append {α : Type} (xs ys : List (String × α)) (k : String) :
    olookup (xs ++ ys) k =
      match olookup xs k with
      | some v => some v
      | none => olookup ys k := by
  induction xs with
  | nil => simp [olookup]
  | cons hd tl ih =>
    obtain ⟨k', v⟩ := hd
    by_cases h : k' = k
    · simp [olookup, h]
    · simp [olookup, h, ih]

theorem olookup_spreadMap {α : Type} (b l : List (String × α)) (k : String) :
    olookup (l.map (fun kv => (kv.1, (olookup b kv.1).getD kv.2))) k =
      (olookup l k).map (fun v => (olookup b k).getD v) := by
  induction l with
  | nil => simp [olookup]
  | cons hd tl ih =>
    obtain ⟨k', v⟩ := hd
    by_cases h : k' = k
    · subst h; simp [olookup]
    · simp [olookup, h, ih]

theorem olookup_spreadFilter {α : Type} (a l : List (String × α)) (k : String) :
    olookup (l.filter (fun kv => (olookup a kv.1).isNone)) k =
      if (olookup a k).isNone then olookup l k else none := by
  induction l with
  | nil => simp [olookup]
  | cons hd tl ih =>
    obtain ⟨k', v⟩ := hd
    by_cases h : k' = k
    · subst h
      cases hq : (olookup a k').isNone <;>
        simp [List.filter_cons, hq, olookup, ih]
    · cases hq : (olookup a k').isNone <;>
        simp [List.filter_cons, hq, olookup, h, ih]

theorem olookup_objSpread {α : Type} (a b : List (String × α)) (k : String) :
    olookup (objSpread a b) k =
      match olookup b k with
      | some w => some w
      | none => olookup a k := by
  unfold objSpread
  rw [olookup_append, olookup_spreadMap, olookup_spreadFilter]
  cases ha : olookup a k <;> cases hb : olookup b k <;> simp [ha, hb]

theorem mem_of_olookup_eq_some {α : Type} {l : List (String × α)} {k : String}
    {v : α} (h : olookup l k = some v) : (k, v) ∈ l := by
  induction l with
  | nil => simp [olookup] at h
  | cons hd tl ih =>
    obtain ⟨k', v'⟩ := hd
    by_cases hk : k' = k
    · subst hk
      simp [olookup] at h
      simp [h]
    · simp [olookup, hk] at h
      exact List.mem_cons_of_mem _ (ih h)

theorem olookup_eq_some_of_mem {α : Type} {l : List (String × α)} {k : String}
    {v : α} (hnd : (l.map Prod.fst).Nodup) (h : (k, v) ∈ l) :
    olookup l k = some v := by
  induction l with
  | nil => simp at h
  | cons hd tl ih =>
    obtain ⟨k', v'⟩ := hd
    simp only [List.map_cons, List.nodup_cons] at hnd
    obtain ⟨hk'notin, hndtl⟩ := hnd
    rcases List.mem_cons.mp h with heq | hmem
    · have h1 : k = k' := congrArg Prod.fst heq
      have h2 : v = v' := congrArg Prod.snd heq
      subst h1; subst h2
      simp [olookup]
    · by_cases hk : k' = k
      · exact absurd (hk ▸ List.mem_map_of_mem Prod.fst hmem) hk'notin
      · simpa [olookup, hk] using ih hndtl hmem

theorem olookup_eq_none_iff {α : Type} {l : List (String × α)} {k : String} :
    olookup l k = none ↔ k ∉ l.map Prod.fst := by
  induction l with
  | nil => simp [olookup]
  | cons hd tl ih =>
    obtain ⟨k', v'⟩ := hd
    by_cases hk : k' = k
    · subst hk; simp [olookup]
    · rw [List.map_cons]
      simp only [olookup, if_neg hk, ih, List.mem_cons]
      constructor
      · intro h hor
        rcases hor with h1 | h2
        · exact hk h1.symm
        · exact h h2
      · intro h h2
        exact h (Or.inr h2)

theorem olookup_perm {α : Type} {l l' : List (String × α)}
    (hp : List.Perm l l') (hnd : (l.map Prod.fst).Nodup) (k : String) :
    olookup l k = olookup l' k := by
  cases h : olookup l k with
  | some v =>
    have hm : (k, v) ∈ l' := hp.mem_iff.mp (mem_of_olookup_eq_some h)
    have hnd' : (l'.map Prod.fst).Nodup := ((hp.map Prod.fst).nodup_iff).mp hnd
    exact (olookup_eq_some_of_mem hnd' hm).symm
  | none =>
    have h1 : k ∉ l.map Prod.fst := olookup_eq_none_iff.mp h
    have h2 : k ∉ l'.map Prod.fst :=
      fun hmem => h1 ((hp.map Prod.fst).mem_iff.mpr hmem)
    exact (olookup_eq_none_iff.mpr h2).symm

/-! ### Claim C1 -/

/-- Claim C1: for every pair of Projects and every workspace-membership
flag, `ensureValidProjectDependency` computes the expected declaration as
the dependency's own declared version string when the flag is true, and
otherwise as `link:` followed by the dependency's directory path relative
to the dependent's directory with separators normalized to forward
slashes; it returns silently exactly when the dependent's declared
version string for the dependency's name equals this expected value. -/
theorem ensureValidProjectDependency_ok_iff (p q : Project) (flag : Bool) :
    p.ensureValidProjectDependency q flag = Except.ok () ↔
      olookup p.allDependencies q.name =
        some (if flag then q.json.version
          else "link:" ++ normalizePath (relativePath p.path q.path)) := by
  unfold Project.ensureValidProjectDependency
  by_cases h : olookup p.allDependencies q.name =
      some (if flag then q.json.version
        else "link:" ++ normalizePath (relativePath p.path q.path)) <;>
    simp [h]

/-! ### Claim C4 -/

/-- Claim C4: whenever the declared version string differs from the
expected value, `ensureValidProjectDependency` fails with a structured
error classified into exactly one of three messages — link reference but
should be a workspace reference, link reference with the wrong path, or
not using the local package — carrying the dependent's name, the
dependency's name, and the actual and expected declarations formatted as
manifest-fragment text. -/
theorem ensureValidProjectDependency_mismatch (p q : Project) (flag : Bool)
    (h : olookup p.allDependencies q.name ≠
        some (if flag then q.json.version
          else "link:" ++ normalizePath (relativePath p.path q.path))) :
    p.ensureValidProjectDependency q flag =
      Except.error
        { message :=
            "[" ++ p.name ++ "] depends on [" ++ q.name ++ "] " ++
              (if isLinkDependency (olookup p.allDependencies q.name) && flag then
                  "but should be using a workspace"
                else if isLinkDependency (olookup p.allDependencies q.name) then
                  "using \x27link:\x27, but the path is wrong"
                else "but it\x27s not using the local package") ++
              ". Update its package.json to the expected value below."
          meta :=
            [("actual",
                "\"" ++ q.name ++ "\": \"" ++
                  jsDisplay (olookup p.allDependencies q.name) ++ "\""),
             ("expected",
                "\"" ++ q.name ++ "\": \"" ++
                  (if flag then q.json.version
                    else "link:" ++ normalizePath (relativePath p.path q.path)) ++
                  "\""),
             ("package", p.name ++ " (" ++ p.packageJsonLocation ++ ")")] } := by
  unfold Project.ensureValidProjectDependency
  simp [h]

/-- Witness for C4, the spec's own example: the dependent at `/ws/app`
declares `"^1.0.0"` for `lib` at `/ws/libs/lib`; the failure is
classified as not using the local package. -/
theorem ensureValidProjectDependency_mismatch_witness :
    olookup (Project.fromJson
        { name := "app", version := "2.0.0",
          dependencies := some [("lib", "^1.0.0")], devDependencies := none,
          scripts := none, bin := none, workspaces := false,
          osdPm := none } "/ws/app").allDependencies "lib" ≠
      some "link:../libs/lib" ∧
    (Project.fromJson
        { name := "app", version := "2.0.0",
          dependencies := some [("lib", "^1.0.0")], devDependencies := none,
          scripts := none, bin := none, workspaces := false,
          osdPm := none } "/ws/app").ensureValidProjectDependency
      (Project.fromJson
        { name := "lib", version := "1.0.0", dependencies := none,
          devDependencies := none, scripts := none, bin := none,
          workspaces := false, osdPm := none } "/ws/libs/lib") false =
      Except.error
        { message :=
            "[app] depends on [lib] but it\x27s not using the local package. Update its package.json to the expected value below."
          meta :=
            [("actual", "\"lib\": \"^1.0.0\""),
             ("expected", "\"lib\": \"link:../libs/lib\""),
             ("package", "app (/ws/app/package.json)")] } := by
  refine ⟨by decide, ?_⟩
  have h := ensureValidProjectDependency_mismatch
    (Project.fromJson
      { name := "app", version := "2.0.0",
        dependencies := some [("lib", "^1.0.0")], devDependencies := none,
        scripts := none, bin := none, workspaces := false,
        osdPm := none } "/ws/app")
    (Project.fromJson
      { name := "lib", version := "1.0.0", dependencies := none,
        devDependencies := none, scripts := none, bin := none,
        workspaces := false, osdPm := none } "/ws/libs/lib")
    false (by decide)
  rw [h]
  rfl

/-! ### Claim C10 -/

/-- Claim C10: when the dependent declares no entry at all for the
dependency's name, `ensureValidProjectDependency` does not succeed
silently: it fails, classified as not using the local package, reporting
the absent declaration as the actual value. -/
theorem ensureValidProjectDependency_absent (p q : Project) (flag : Bool)
    (h : olookup p.allDependencies q.name = none) :
    p.ensureValidProjectDependency q flag =
      Except.error
        { message :=
            "[" ++ p.name ++ "] depends on [" ++ q.name ++ "] " ++
              "but it\x27s not using the local package" ++
              ". Update its package.json to the expected value below."
          meta :=
            [("actual", "\"" ++ q.name ++ "\": \"" ++ "undefined" ++ "\""),
             ("expected",
                "\"" ++ q.name ++ "\": \"" ++
                  (if flag then q.json.version
                    else "link:" ++ normalizePath (relativePath p.path q.path)) ++
                  "\""),
             ("package", p.name ++ " (" ++ p.packageJsonLocation ++ ")")] } := by
  unfold Project.ensureValidProjectDependency
  simp [h, isLinkDependency, jsDisplay]

/-- Witness for C10: a dependent that declares nothing for `lib` fails
with the not-using-the-local-package classification and `undefined` as
the reported actual declaration. -/
theorem ensureValidProjectDependency_absent_witness :
    olookup (Project.fromJson
        { name := "app", version := "2.0.0", dependencies := none,
          devDependencies := none, scripts := none, bin := none,
          workspaces := false, osdPm := none } "/ws/app").allDependencies
        "lib" = none ∧
    (Project.fromJson
        { name := "app", version := "2.0.0", dependencies := none,
          devDependencies := none, scripts := none, bin := none,
          workspaces := false, osdPm := none } "/ws/app").ensureValidProjectDependency
      (Project.fromJson
        { name := "lib", version := "1.0.0", dependencies := none,
          devDependencies := none, scripts := none, bin := none,
          workspaces := false, osdPm := none } "/ws/libs/lib") false =
      Except.error
        { message :=
            "[app] depends on [lib] but it\x27s not using the local package. Update its package.json to the expected value below."
          meta :=
            [("actual", "\"lib\": \"undefined\""),
             ("expected", "\"lib\": \"link:../libs/lib\""),
             ("package", "app (/ws/app/package.json)")] } := by
  refine ⟨by decide, ?_⟩
  have h := ensureValidProjectDependency_absent
    (Project.fromJson
      { name := "app", version := "2.0.0", dependencies := none,
        devDependencies := none, scripts := none, bin := none,
        workspaces := false, osdPm := none } "/ws/app")
    (Project.fromJson
      { name := "lib", version := "1.0.0", dependencies := none,
        devDependencies := none, scripts := none, bin := none,
        workspaces := false, osdPm := none } "/ws/libs/lib")
    false (by decide)
  rw [h]
  rfl

/-! ### Claim C6 -/

/-- Claim C6: in the constructed Project's `allDependencies`, a key
declared in both `dependencies` and `devDependencies` maps to the
`dependencies` value (production wins), and a key declared in only one of
the two maps appears with its declared value. -/
theorem allDependencies_production_wins (j : PackageJson) (projectPath k : String) :
    olookup (Project.fromJson j projectPath).allDependencies k =
      match olookup (j.dependencies.getD []) k with
      | some v => some v
      | none => olookup (j.devDependencies.getD []) k := by
  have hall : (Project.fromJson j projectPath).allDependencies =
      objSpread (j.devDependencies.getD []) (j.dependencies.getD []) := rfl
  have h := olookup_objSpread (j.devDependencies.getD []) (j.dependencies.getD []) k
  rw [hall]
  cases hd : olookup (j.dependencies.getD []) k <;> simp [hd] at h ⊢ <;> exact h

/-! ### Claim C5 -/

/-- Claim C5: `getExecutables` — the empty-mapping behaviour (absent or
falsy `bin`) aside — yields, for a string `bin`, a single entry keyed by
the project's name mapped to the string resolved against the project
directory; for a mapping `bin`, one entry per key with each value
resolved against the project directory; and for a `bin` that is present
(and truthy) but neither a string nor a mapping, it fails with a
manifest error carrying the offending raw value and the manifest
location. -/
theorem getExecutables_claim (p : Project) :
    (∀ s : String, p.json.bin = some (JsValue.str s) → s ≠ "" →
        p.getExecutables = Except.ok [(p.name, resolvePath p.path s)]) ∧
    (∀ entries : List (String × String),
        p.json.bin = some (JsValue.obj entries) →
        p.getExecutables =
          Except.ok (entries.map (fun kv => (kv.1, resolvePath p.path kv.2)))) ∧
    (∀ raw : JsValue, p.json.bin = some raw → raw.truthy = true →
        (∀ s, raw ≠ JsValue.str s) → (∀ entries, raw ≠ JsValue.obj entries) →
        p.getExecutables =
          Except.error
            { message :=
                "[" ++ p.name ++
                  "] has an invalid \"bin\" field in its package.json, expected an object or a string"
              meta :=
                [("binConfig", inspectValue raw),
                 ("package", p.name ++ " (" ++ p.packageJsonLocation ++ ")")] }) := by
  refine ⟨?_, ?_, ?_⟩
  · intro s hbin hs
    unfold Project.getExecutables
    rw [hbin]
    simp [JsValue.truthy, hs]
  · intro entries hbin
    unfold Project.getExecutables
    rw [hbin]
    simp [JsValue.truthy]
  · intro raw hbin htr hstr hobj
    unfold Project.getExecutables
    rw [hbin]
    cases raw with
    | str s => exact absurd rfl (hstr s)
    | obj es => exact absurd rfl (hobj es)
    | num n =>
      simp only [JsValue.truthy] at htr
      simp [JsValue.truthy, htr]
    | boolean b =>
      simp only [JsValue.truthy] at htr
      simp [JsValue.truthy, htr]
    | nullv => simp [JsValue.truthy] at htr

/-- Witness for C5, covering the three shapes at the spec's examples:
`bin: "./bin/cli.js"` on project `foo` at `/ws/foo`, an object `bin`,
and the invalid `bin: 42`. -/
theorem getExecutables_claim_witness :
    (Project.fromJson
        { name := "foo", version := "1.0.0", dependencies := none,
          devDependencies := none, scripts := none,
          bin := some (JsValue.str "./bin/cli.js"), workspaces := false,
          osdPm := none } "/ws/foo").getExecutables =
      Except.ok [("foo", "/ws/foo/bin/cli.js")] ∧
    (Project.fromJson
        { name := "foo", version := "1.0.0", dependencies := none,
          devDependencies := none, scripts := none,
          bin := some (JsValue.obj [("x", "a.js"), ("y", "./sub/b.js")]),
          workspaces := false, osdPm := none } "/ws/foo").getExecutables =
      Except.ok [("x", "/ws/foo/a.js"), ("y", "/ws/foo/sub/b.js")] ∧
    (Project.fromJson
        { name := "foo", version := "1.0.0", dependencies := none,
          devDependencies := none, scripts := none,
          bin := some (JsValue.num 42), workspaces := false,
          osdPm := none } "/ws/foo").getExecutables =
      Except.error
        { message :=
            "[foo] has an invalid \"bin\" field in its package.json, expected an object or a string"
          meta :=
            [("binConfig", "42"),
             ("package", "foo (/ws/foo/package.json)")] } := by
  refine ⟨?_, ?_, ?_⟩
  · have h := (getExecutables_claim (Project.fromJson
      { name := "foo", version := "1.0.0", dependencies := none,
        devDependencies := none, scripts := none,
        bin := some (JsValue.str "./bin/cli.js"), workspaces := false,
        osdPm := none } "/ws/foo")).1 "./bin/cli.js" rfl (by decide)
    rw [h]
    rfl
  · have h := (getExecutables_claim (Project.fromJson
      { name := "foo", version := "1.0.0", dependencies := none,
        devDependencies := none, scripts := none,
        bin := some (JsValue.obj [("x", "a.js"), ("y", "./sub/b.js")]),
        workspaces := false, osdPm := none } "/ws/foo")).2.1
      [("x", "a.js"), ("y", "./sub/b.js")] rfl
    rw [h]
    rfl
  · have h := (getExecutables_claim (Project.fromJson
      { name := "foo", version := "1.0.0", dependencies := none,
        devDependencies := none, scripts := none,
        bin := some (JsValue.num 42), workspaces := false,
        osdPm := none } "/ws/foo")).2.2 (JsValue.num 42) rfl rfl
      (fun s h => JsValue.noConfusion h) (fun entries h => JsValue.noConfusion h)
    rw [h]
    rfl

/-! ### Claim C7 -/

/-- Claim C7: for every custom-definitions block, the constructed
Project's `buildTargets` contains exactly the build-target enumeration
members present as truthy keys in the block, in the fixed enumeration
order, regardless of the order of the keys in the input: the result
equals the fixed enumeration filtered through any reordering `d` of the
block. -/
theorem buildTargets_claim (j : PackageJson) (projectPath : String)
    (d : List (String × JsValue))
    (hperm : List.Perm (j.osdPm.getD []) d)
    (hnd : ((j.osdPm.getD []).map Prod.fst).Nodup) :
    (Project.fromJson j projectPath).buildTargets =
      BuildTargets.filter (fun t => truthyKey d t.key) := by
  have hb : (Project.fromJson j projectPath).buildTargets =
      BuildTargets.filter (fun t => truthyKey (j.osdPm.getD []) t.key) := rfl
  rw [hb]
  apply List.filter_congr
  intro t _
  unfold truthyKey
  rw [olookup_perm hperm hnd t.key]

/-- Witness for C7: a block listing `web` first, then a truthy `node`,
then a falsy extra key, compared against a reordering of the same block;
the build targets come out in enumeration order `[node, web]`. -/
theorem buildTargets_claim_witness :
    List.Perm
      ((some [("web", JsValue.boolean true), ("node", JsValue.str "yes"),
          ("extra", JsValue.num 0)] : Option (List (String × JsValue))).getD [])
      [("extra", JsValue.num 0), ("node", JsValue.str "yes"),
        ("web", JsValue.boolean true)] ∧
    (((some [("web", JsValue.boolean true), ("node", JsValue.str "yes"),
          ("extra", JsValue.num 0)] : Option (List (String × JsValue))).getD
        []).map Prod.fst).Nodup ∧
    (Project.fromJson
        { name := "pkg", version := "1.0.0", dependencies := none,
          devDependencies := none, scripts := none, bin := none,
          workspaces := false,
          osdPm := some [("web", JsValue.boolean true),
            ("node", JsValue.str "yes"), ("extra", JsValue.num 0)] }
        "/ws/pkg").buildTargets =
      [BuildTargetType.node, BuildTargetType.web] := by
  refine ⟨by decide, by decide, ?_⟩
  have h := buildTargets_claim
    { name := "pkg", version := "1.0.0", dependencies := none,
      devDependencies := none, scripts := none, bin := none,
      workspaces := false,
      osdPm := some [("web", JsValue.boolean true),
        ("node", JsValue.str "yes"), ("extra", JsValue.num 0)] }
    "/ws/pkg"
    [("extra", JsValue.num 0), ("node", JsValue.str "yes"),
      ("web", JsValue.boolean true)]
    (by decide) (by decide)
  rw [h]
  rfl

/-! ### Claim C9 -/

/-- Claim C9: for every Project that is not the workspace root,
`removeExtraneousNodeModules` returns without querying the driver for
workspace membership info and without removing any entry. -/
theorem removeExtraneousNodeModules_nonroot (p : Project)
    (workspacesInfo : List (String × List String))
    (nodeModulesEntries : List String)
    (h : p.isWorkspaceRoot = false) :
    p.removeExtraneousNodeModules workspacesInfo nodeModulesEntries =
      { queriedWorkspacesInfo := false, removed := [] } := by
  unfold Project.removeExtraneousNodeModules
  simp [h]

/-- Witness for C9: a non-root member project leaves a populated
workspace and `node_modules` untouched and never queries the driver. -/
theorem removeExtraneousNodeModules_nonroot_witness :
    (Project.fromJson
        { name := "a", version := "1.0.0", dependencies := none,
          devDependencies := none, scripts := none, bin := none,
          workspaces := false, osdPm := none } "/ws/a").isWorkspaceRoot =
      false ∧
    (Project.fromJson
        { name := "a", version := "1.0.0", dependencies := none,
          devDependencies := none, scripts := none, bin := none,
          workspaces := false, osdPm := none } "/ws/a").removeExtraneousNodeModules
      [("a", ["b"]), ("b", []), ("c", [])] ["a", "b", "c"] =
      { queriedWorkspacesInfo := false, removed := [] } := by
  refine ⟨rfl, ?_⟩
  exact removeExtraneousNodeModules_nonroot
    (Project.fromJson
      { name := "a", version := "1.0.0", dependencies := none,
        devDependencies := none, scripts := none, bin := none,
        workspaces := false, osdPm := none } "/ws/a")
    [("a", ["b"]), ("b", []), ("c", [])] ["a", "b", "c"] rfl

/-! ### Claim C2 -/

/-- Counterexample to claim C2 as stated: in the workspace whose
membership info is `a, b, c` with `a → b` the only intra-workspace
dependency edge, a root that declares neither `b` nor `c` (here: no
dependencies at all) and links existing for all three members removes
the links of both `a` and `c`, not exactly the link for `c`: the unused
member `a` is pruned as well whenever the root does not declare it. -/
theorem removeExtraneousNodeModules_not_exactly_c :
    ((Project.fromJson
        { name := "root", version := "1.0.0", dependencies := none,
          devDependencies := none, scripts := none, bin := none,
          workspaces := true, osdPm := none } "/ws").removeExtraneousNodeModules
      [("a", ["b"]), ("b", []), ("c", [])] ["a", "b", "c"]).removed =
      ["a", "c"] ∧
    ((Project.fromJson
        { name := "root", version := "1.0.0", dependencies := none,
          devDependencies := none, scripts := none, bin := none,
          workspaces := true, osdPm := none } "/ws").removeExtraneousNodeModules
      [("a", ["b"]), ("b", []), ("c", [])] ["a", "b", "c"]).removed ≠
      ["c"] := by
  exact ⟨rfl, by decide⟩

/-- Claim C2 (amended): in a workspace whose membership info is
`a, b, c` where only `a` declares a workspace dependency on `b`, and
whose root declares neither `b` nor `c` as a production or development
dependency, `removeExtraneousNodeModules` on the root removes the
`node_modules` link for `c` exactly when it exists, never removes the
link for `b`, and additionally removes the link for the undepended-upon
member `a` exactly when the root does not declare `a` either and `a`'s
link exists. -/
theorem removeExtraneousNodeModules_scenario (p : Project)
    (nodeModulesEntries : List String)
    (hroot : p.isWorkspaceRoot = true)
    (_hbd : hasOwnDep p.json.dependencies "b" = false)
    (_hbv : hasOwnDep p.json.devDependencies "b" = false)
    (hcd : hasOwnDep p.json.dependencies "c" = false)
    (hcv : hasOwnDep p.json.devDependencies "c" = false) :
    "b" ∉ (p.removeExtraneousNodeModules [("a", ["b"]), ("b", []), ("c", [])]
        nodeModulesEntries).removed ∧
    ("c" ∈ (p.removeExtraneousNodeModules [("a", ["b"]), ("b", []), ("c", [])]
        nodeModulesEntries).removed ↔
      "c" ∈ nodeModulesEntries) ∧
    ("a" ∈ (p.removeExtraneousNodeModules [("a", ["b"]), ("b", []), ("c", [])]
        nodeModulesEntries).removed ↔
      (hasOwnDep p.json.dependencies "a" = false ∧
        hasOwnDep p.json.devDependencies "a" = false ∧
        "a" ∈ nodeModulesEntries)) := by
  have hro : ¬ p.isWorkspaceRoot = false := by simp [hroot]
  have hresult : p.removeExtraneousNodeModules
      [("a", ["b"]), ("b", []), ("c", [])] nodeModulesEntries =
      { queriedWorkspacesInfo := true
        removed :=
          List.filter (fun name =>
            !hasOwnDep p.json.dependencies name &&
              !hasOwnDep p.json.devDependencies name &&
              nodeModulesEntries.contains name) ["a", "c"] } := by
    unfold Project.removeExtraneousNodeModules
    rw [if_neg hro]
    rfl
  rw [hresult]
  refine ⟨?_, ?_, ?_⟩
  · intro hmem
    exact absurd (List.mem_filter.mp hmem).1 (by decide)
  · constructor
    · intro hmem
      have hp := (List.mem_filter.mp hmem).2
      simpa [hcd, hcv] using hp
    · intro hcont
      exact List.mem_filter.mpr ⟨by decide, by simp [hcd, hcv, hcont]⟩
  · constructor
    · intro hmem
      have hp := (List.mem_filter.mp hmem).2
      simp only [Bool.and_eq_true, Bool.not_eq_true'] at hp
      refine ⟨hp.1.1, hp.1.2, ?_⟩
      simpa using hp.2
    · intro hcond
      exact List.mem_filter.mpr
        ⟨by decide, by simp [hcond.1, hcond.2.1, hcond.2.2]⟩

/-- Witness for the amended C2: the root declares member `a` (so `a`'s
link survives), all three links exist; exactly `c`'s link is removed and
`b`'s remains. -/
theorem removeExtraneousNodeModules_scenario_witness :
    (Project.fromJson
        { name := "root", version := "1.0.0",
          dependencies := some [("a", "1.0.0")], devDependencies := none,
          scripts := none, bin := none, workspaces := true,
          osdPm := none } "/ws").isWorkspaceRoot = true ∧
    "b" ∉ ((Project.fromJson
        { name := "root", version := "1.0.0",
          dependencies := some [("a", "1.0.0")], devDependencies := none,
          scripts := none, bin := none, workspaces := true,
          osdPm := none } "/ws").removeExtraneousNodeModules
      [("a", ["b"]), ("b", []), ("c", [])] ["a", "b", "c"]).removed ∧
    ("c" ∈ ((Project.fromJson
        { name := "root", version := "1.0.0",
          dependencies := some [("a", "1.0.0")], devDependencies := none,
          scripts := none, bin := none, workspaces := true,
          osdPm := none } "/ws").removeExtraneousNodeModules
      [("a", ["b"]), ("b", []), ("c", [])] ["a", "b", "c"]).removed ↔
      "c" ∈ (["a", "b", "c"] : List String)) ∧
    ("a" ∈ ((Project.fromJson
        { name := "root", version := "1.0.0",
          dependencies := some [("a", "1.0.0")], devDependencies := none,
          scripts := none, bin := none, workspaces := true,
          osdPm := none } "/ws").removeExtraneousNodeModules
      [("a", ["b"]), ("b", []), ("c", [])] ["a", "b", "c"]).removed ↔
      (hasOwnDep (some [("a", "1.0.0")]) "a" = false ∧
        hasOwnDep (none : Option (List (String × String))) "a" = false ∧
        "a" ∈ (["a", "b", "c"] : List String))) := by
  refine ⟨rfl, ?_⟩
  exact removeExtraneousNodeModules_scenario
    (Project.fromJson
      { name := "root", version := "1.0.0",
        dependencies := some [("a", "1.0.0")], devDependencies := none,
        scripts := none, bin := none, workspaces := true,
        osdPm := none } "/ws")
    ["a", "b", "c"] rfl (by decide) (by decide) (by decide) (by decide)

/-! ### Claim C3 -/

/-- Counterexample to claim C3 as stated: the manifest file is patched
with the quoted manifest fragment `"name": "version"`, not with the
literal `name@version`; a manifest text consisting of the literal
occurrence `lodash@4.17.21` is left unchanged instead of being rewritten
to `lodash@^4.17.21` (the lock file, in contrast, is rewritten). -/
theorem installDependencyVersion_manifest_counterexample :
    ((Project.fromJson
        { name := "x", version := "1.0.0", dependencies := none,
          devDependencies := none, scripts := none, bin := none,
          workspaces := false, osdPm := none } "/ws/x").installDependencyVersion
      "lodash" "4.17.21" false none "lodash@4.17.21" "lodash@4.17.21").manifest =
      "lodash@4.17.21" ∧
    ((Project.fromJson
        { name := "x", version := "1.0.0", dependencies := none,
          devDependencies := none, scripts := none, bin := none,
          workspaces := false, osdPm := none } "/ws/x").installDependencyVersion
      "lodash" "4.17.21" false none "lodash@4.17.21" "lodash@4.17.21").manifest ≠
      "lodash@^4.17.21" ∧
    ((Project.fromJson
        { name := "x", version := "1.0.0", dependencies := none,
          devDependencies := none, scripts := none, bin := none,
          workspaces := false, osdPm := none } "/ws/x").installDependencyVersion
      "lodash" "4.17.21" false none "lodash@4.17.21" "lodash@4.17.21").lock =
      "lodash@^4.17.21" := by
  exact ⟨rfl, by decide, rfl⟩

/-- Claim C3 (amended): for every dependency name, exact version, and
non-workspace-member project, `installDependencyVersion` with no range
supplied replaces every literal occurrence of the quoted manifest
fragment `"name": "version"` by `"name": "^version"` in the manifest
file, and every literal occurrence of `name@version` by `name@^version`
in the lock file (so no other occurrence of `name@` in the lock file is
modified), and the driver install is invoked with the `name@version`
argument. -/
theorem installDependencyVersion_patches (p : Project)
    (depName version manifestText lockText : String) (dev : Bool)
    (h : p.isWorkspaceProject = false) :
    p.installDependencyVersion depName version dev none manifestText lockText =
      { installCall :=
          { extraArgs :=
              some (if dev then [depName ++ "@" ++ version, "--dev"]
                else [depName ++ "@" ++ version])
            isDependencyInstall := true }
        manifest :=
          patchFileContent manifestText
            ("\"" ++ depName ++ "\": \"" ++ version ++ "\"")
            ("\"" ++ depName ++ "\": \"" ++ ("^" ++ version) ++ "\"")
        lock :=
          patchFileContent lockText
            (depName ++ "@" ++ version)
            (depName ++ "@" ++ ("^" ++ version)) } := by
  unfold Project.installDependencyVersion
  simp [h, rangeToUse]

/-- Witness for the amended C3, the spec's `lodash` example: the quoted
manifest fragment is rewritten, every lock occurrence of
`lodash@4.17.21` becomes `lodash@^4.17.21`, and the other `lodash@`
occurrence is untouched. -/
theorem installDependencyVersion_patches_witness :
    (Project.fromJson
        { name := "x", version := "1.0.0", dependencies := none,
          devDependencies := none, scripts := none, bin := none,
          workspaces := false, osdPm := none } "/ws/x").isWorkspaceProject =
      false ∧
    (Project.fromJson
        { name := "x", version := "1.0.0", dependencies := none,
          devDependencies := none, scripts := none, bin := none,
          workspaces := false, osdPm := none } "/ws/x").installDependencyVersion
      "lodash" "4.17.21" false none
      "deps: \"lodash\": \"4.17.21\" end"
      "lodash@4.17.21 then lodash@9.9.9 then lodash@4.17.21:" =
      { installCall :=
          { extraArgs := some ["lodash@4.17.21"], isDependencyInstall := true }
        manifest := "deps: \"lodash\": \"^4.17.21\" end"
        lock := "lodash@^4.17.21 then lodash@9.9.9 then lodash@^4.17.21:" } := by
  refine ⟨rfl, ?_⟩
  have h := installDependencyVersion_patches
    (Project.fromJson
      { name := "x", version := "1.0.0", dependencies := none,
        devDependencies := none, scripts := none, bin := none,
        workspaces := false, osdPm := none } "/ws/x")
    "lodash" "4.17.21"
    "deps: \"lodash\": \"4.17.21\" end"
    "lodash@4.17.21 then lodash@9.9.9 then lodash@4.17.21:" false rfl
  rw [h]
  rfl

/-! ### Claim C8 -/

/-- Claim C8: when the project's workspace-membership flag is set,
`installDependencyVersion` performs a bare install of the whole project
directory — no per-package `name@version` argument is passed to the
driver — while still performing the two textual patches afterwards. -/
theorem installDependencyVersion_workspace (p : Project)
    (depName version : String) (dev : Bool) (range : Option String)
    (manifestText lockText : String)
    (h : p.isWorkspaceProject = true) :
    p.installDependencyVersion depName version dev range manifestText lockText =
      { installCall := { extraArgs := none, isDependencyInstall := false }
        manifest :=
          patchFileContent manifestText
            ("\"" ++ depName ++ "\": \"" ++ version ++ "\"")
            ("\"" ++ depName ++ "\": \"" ++ rangeToUse range version ++ "\"")
        lock :=
          patchFileContent lockText
            (depName ++ "@" ++ version)
            (depName ++ "@" ++ rangeToUse range version) } := by
  unfold Project.installDependencyVersion
  simp [h]

/-- Witness for C8: a workspace member project gets a bare install (no
extra arguments) while both text artifacts are still patched. -/
theorem installDependencyVersion_workspace_witness :
    { Project.fromJson
        { name := "m", version := "1.0.0", dependencies := none,
          devDependencies := none, scripts := none, bin := none,
          workspaces := false, osdPm := none } "/ws/m"
      with isWorkspaceProject := true }.isWorkspaceProject = true ∧
    { Project.fromJson
        { name := "m", version := "1.0.0", dependencies := none,
          devDependencies := none, scripts := none, bin := none,
          workspaces := false, osdPm := none } "/ws/m"
      with isWorkspaceProject := true }.installDependencyVersion
      "lodash" "4.17.21" false none
      "m \"lodash\": \"4.17.21\"" "l lodash@4.17.21" =
      { installCall := { extraArgs := none, isDependencyInstall := false }
        manifest := "m \"lodash\": \"^4.17.21\""
        lock := "l lodash@^4.17.21" } := by
  refine ⟨rfl, ?_⟩
  have h := installDependencyVersion_workspace
    { Project.fromJson
        { name := "m", version := "1.0.0", dependencies := none,
          devDependencies := none, scripts := none, bin := none,
          workspaces := false, osdPm := none } "/ws/m"
      with isWorkspaceProject := true }
    "lodash" "4.17.21" false none
    "m \"lodash\": \"4.17.21\"" "l lodash@4.17.21" rfl
  rw [h]
  rfl

end OsdPm
